import Mathlib

/-!
Verification of the RAG chat service backend (`app/backend/{db,rag,api,main}.py`).

Shallow embedding conventions:
* Python strings are Lean `String`s; where character-level reasoning or kernel
  evaluation is needed we work on `String.data : List Char` (a Python `str` is a
  sequence of code points, and Python `len` counts code points, as does
  `List.length` on `String.data`).
* The external collaborators (OpenAI chat/embedding provider, MongoDB Atlas
  vector index) are modelled as abstract functions: `RagEnv.gen` is the chat
  completion provider and `RagEnv.rank` is the datastore's similarity ranking
  (all stored documents ordered most-similar-first for a query).  The `k = 3`
  retriever limit (`as_retriever(search_kwargs={"k": 3})`) is the documented
  contract "return the top k of that ranking" and is embedded concretely as
  `List.take 3`.
* The text splitter is `langchain_text_splitters.RecursiveCharacterTextSplitter`
  instantiated exactly as in `rag.py` (`chunk_size=1000`, `chunk_overlap=200`,
  default separators `["\n\n", "\n", " ", ""]`, `keep_separator=True`,
  `strip_whitespace=True`, `length_function=len`).  Its algorithm is ported
  faithfully below on `List Char`.
* Fallible Python code (raising exceptions) is modelled with `Except`/explicit
  outcome data; HTTP handlers return a status/detail record plus the updated
  observable state (local files, datastore collection).
-/

namespace RagProject

/-! ## Data model -/

/-- Chunk metadata: of the underlying Python dict only the keys `source` and
`page` are ever written or read (read via `dict.get` with defaults). -/
structure Metadata where
  source : Option String
  page : Option Nat
deriving DecidableEq, Repr

/-- A LangChain `Document`: chunk text plus metadata. -/
structure Document where
  page_content : String
  metadata : Metadata
deriving DecidableEq, Repr

/-! ## Python string primitives (char-list semantics) -/

/-- Python `s.endswith(suffix)`. -/
def str_endswith (s tail : String) : Bool :=
  tail.data.isSuffixOf s.data

/-- Python `s.startswith(p)`. -/
def str_startswith (s head : String) : Bool :=
  head.data.isPrefixOf s.data

/-- Python `sep.join(parts)`. -/
def join_sep (sep : String) : List String → String
  | [] => ""
  | [x] => x
  | x :: y :: xs => x ++ sep ++ join_sep sep (y :: xs)

/-! ## The text splitter (RecursiveCharacterTextSplitter, ported)

The configuration fixed by `rag.py` uses `keep_separator=True`, so inside
`_split_text` the merge separator is always `""`; every occurrence of the
chosen separator is kept attached to the front of the split that follows it
(`_split_text_with_regex`).  All functions below operate on `List Char`. -/

def chunk_size : Nat := 1000

def chunk_overlap : Nat := 200

/-- Total length of a list of splits (the running `total` of `_merge_splits`,
whose separator contributions are all `0` because the separator is `""`). -/
def sumLen (l : List (List Char)) : Nat :=
  (l.map List.length).sum

/-- Python `str.strip()`: drop whitespace from both ends. -/
def trimChars (l : List Char) : List Char :=
  ((l.dropWhile Char.isWhitespace).reverse.dropWhile Char.isWhitespace).reverse

/-- `TextSplitter._join_docs(docs, "")`: concatenate, strip, drop if empty. -/
def joinDocs (docs : List (List Char)) : Option (List Char) :=
  if trimChars docs.flatten = [] then none else some (trimChars docs.flatten)

/-- The pop loop inside `_merge_splits`: after emitting a chunk, drop leading
splits while the kept total exceeds `chunk_overlap`, or while it together with
the incoming split would exceed `chunk_size` (and something is left to drop). -/
def popWhile (lenD : Nat) : List (List Char) → Nat → List (List Char) × Nat
  | [], total => ([], total)
  | d :: rest, total =>
    if total > chunk_overlap ∨ (total + lenD > chunk_size ∧ total > 0) then
      popWhile lenD rest (total - d.length)
    else (d :: rest, total)

/-- Loop body of `TextSplitter._merge_splits(splits, "")`, written as recursion
on the remaining splits; `cur`/`total` are `current_doc`/`total`. -/
def mergeRec : List (List Char) → List (List Char) → Nat → List (List Char)
  | [], cur, _ =>
    match joinDocs cur with
    | some t => [t]
    | none => []
  | d :: ds, cur, total =>
    if total + d.length > chunk_size then
      if cur = [] then
        mergeRec ds (cur ++ [d]) (total + d.length)
      else
        (match joinDocs cur with
          | some t => [t]
          | none => []) ++
          mergeRec ds ((popWhile d.length cur total).1 ++ [d])
            ((popWhile d.length cur total).2 + d.length)
    else
      mergeRec ds (cur ++ [d]) (total + d.length)

/-- `TextSplitter._merge_splits(splits, "")`. -/
def merge_splits (splits : List (List Char)) : List (List Char) :=
  mergeRec splits [] 0

/-- Index of the leftmost occurrence of `sep` in `text` (`re.search` of the
escaped separator). -/
def findSeq (sep : List Char) : List Char → Option Nat
  | [] => if sep.isPrefixOf ([] : List Char) then some 0 else none
  | c :: rest =>
    if sep.isPrefixOf (c :: rest) then some 0
    else (findSeq sep rest).map (fun i => i + 1)

/-- Whether `sep` occurs in `text` (the `re.search` test of `_split_text`). -/
def containsSeq (sep text : List Char) : Bool :=
  (findSeq sep text).isSome

/-- Split `text` at every non-overlapping leftmost occurrence of `sep`
(`re.split` on the escaped separator).  The fuel argument only bounds the
number of occurrences, which is at most `text.length` for a nonempty `sep`. -/
def splitOnSeqFuel (sep : List Char) : Nat → List Char → List (List Char)
  | 0, text => [text]
  | fuel + 1, text =>
    match findSeq sep text with
    | none => [text]
    | some i => text.take i :: splitOnSeqFuel sep fuel (text.drop (i + sep.length))

def splitOnSeq (sep text : List Char) : List (List Char) :=
  splitOnSeqFuel sep text.length text

/-- `_split_text_with_regex(text, sep, keep_separator=True)`: split on `sep`,
reattach each separator occurrence to the front of the following piece, and
drop empty strings. -/
def splitKeepSep (sep text : List Char) : List (List Char) :=
  match splitOnSeq sep text with
  | [] => []
  | p :: ps => (p :: ps.map (fun piece => sep ++ piece)).filter (fun s => s ≠ [])

/-- `_split_text_with_regex(text, "", _)` is `list(text)` (then empties are
dropped, which is vacuous for single characters). -/
def charSplits (text : List Char) : List (List Char) :=
  (text.map (fun c => [c])).filter (fun s => s ≠ [])

/-- The good/bad-splits loop of `_split_text`: splits shorter than `chunk_size`
accumulate in `good` and are merged; longer ones flush the accumulator and are
split recursively at the next separator level (`recur`).  With the default
separator list the next level always exists when a long split can occur. -/
def processSplits (recur : List Char → List (List Char)) :
    List (List Char) → List (List Char) → List (List Char)
  | [], good => if good = [] then [] else merge_splits good
  | s :: ss, good =>
    if s.length < chunk_size then
      processSplits recur ss (good ++ [s])
    else
      (if good = [] then [] else merge_splits good) ++ recur s ++ processSplits recur ss []

/-- `_split_text(text, [""])`: the separator `""` is chosen immediately, the
splits are the single characters (each shorter than `chunk_size`), so the
result is their merge. -/
def splitL3 (text : List Char) : List (List Char) :=
  merge_splits (charSplits text)

/-- `_split_text(text, [" ", ""])`. -/
def splitL2 (text : List Char) : List (List Char) :=
  if containsSeq [' '] text then processSplits splitL3 (splitKeepSep [' '] text) []
  else splitL3 text

/-- `_split_text(text, ["\n", " ", ""])`. -/
def splitL1 (text : List Char) : List (List Char) :=
  if containsSeq ['\n'] text then processSplits splitL2 (splitKeepSep ['\n'] text) []
  else splitL2 text

/-- `_split_text(text, ["\n\n", "\n", " ", ""])`: the full separator cascade of
`RecursiveCharacterTextSplitter.split_text` with the default separators. -/
def splitL0 (text : List Char) : List (List Char) :=
  if containsSeq ['\n', '\n'] text then processSplits splitL1 (splitKeepSep ['\n', '\n'] text) []
  else splitL1 text

/-- `RecursiveCharacterTextSplitter(chunk_size=1000, chunk_overlap=200)
.split_text(text)`. -/
def split_text (text : String) : List String :=
  (splitL0 text.data).map (fun l => String.mk l)

/-- `TextSplitter.split_documents` (via `create_documents`): chunk every
document's text and copy its metadata onto each chunk. -/
def split_documents (docs : List Document) : List Document :=
  (docs.map (fun doc =>
    (split_text doc.page_content).map
      (fun c => { page_content := c, metadata := doc.metadata : Document }))).flatten

/-- `rag.ingest_text`: wrap the text in a single `Document` with source
metadata `"User Input"`, split it, upsert all chunks into the collection, and
return the number of chunks.  The datastore collection is threaded explicitly
as a list of stored documents. -/
def ingest_text (store : List Document) (text : String) : Nat × List Document :=
  let docs : List Document :=
    [{ page_content := text, metadata := { source := some "User Input", page := none } }]
  let splits := split_documents docs
  (splits.length, store ++ splits)

/-! ## Proof instrumentation for the splitter

`mergeRecAnn` is `mergeRec` with two differences: emitted chunks are kept raw
(no strip, no dropping of empty chunks) and each is paired with the length of
the text carried over from its predecessor (the `total` retained by the pop
loop, i.e. the constructed overlap).  `filterTrim` recovers the real output. -/

def mergeRecAnn : List (List Char) → List (List Char) → Nat → Nat → List (List Char × Nat)
  | [], cur, _, carried =>
    if cur = [] then [] else [(cur.flatten, carried)]
  | d :: ds, cur, total, carried =>
    if total + d.length > chunk_size then
      if cur = [] then
        mergeRecAnn ds (cur ++ [d]) (total + d.length) carried
      else
        (cur.flatten, carried) ::
          mergeRecAnn ds ((popWhile d.length cur total).1 ++ [d])
            ((popWhile d.length cur total).2 + d.length) (popWhile d.length cur total).2
    else
      mergeRecAnn ds (cur ++ [d]) (total + d.length) carried

/-- Strip each raw chunk and drop the ones that become empty: the bridge from
the instrumented splitter back to the real one. -/
def filterTrim (l : List (List Char × Nat)) : List (List Char) :=
  l.filterMap (fun p => if trimChars p.1 = [] then none else some (trimChars p.1))

def processSplitsAnn (recurAnn : List Char → List (List Char × Nat)) :
    List (List Char) → List (List Char) → List (List Char × Nat)
  | [], good => if good = [] then [] else mergeRecAnn good [] 0 0
  | s :: ss, good =>
    if s.length < chunk_size then
      processSplitsAnn recurAnn ss (good ++ [s])
    else
      (if good = [] then [] else mergeRecAnn good [] 0 0) ++ recurAnn s
        ++ processSplitsAnn recurAnn ss []

def splitL3Ann (text : List Char) : List (List Char × Nat) :=
  mergeRecAnn (charSplits text) [] 0 0

def splitL2Ann (text : List Char) : List (List Char × Nat) :=
  if containsSeq [' '] text then processSplitsAnn splitL3Ann (splitKeepSep [' '] text) []
  else splitL3Ann text

def splitL1Ann (text : List Char) : List (List Char × Nat) :=
  if containsSeq ['\n'] text then processSplitsAnn splitL2Ann (splitKeepSep ['\n'] text) []
  else splitL2Ann text

def splitL0Ann (text : List Char) : List (List Char × Nat) :=
  if containsSeq ['\n', '\n'] text then processSplitsAnn splitL1Ann (splitKeepSep ['\n', '\n'] text) []
  else splitL1Ann text

/-- Overlap relation between consecutive raw chunks: the second chunk's
recorded carried length is at most `chunk_overlap`, and its carried part (its
first `carried` characters) is literally a suffix of the first chunk. -/
def ovRel (a b : List Char × Nat) : Prop :=
  b.2 ≤ chunk_overlap ∧ (b.1.take b.2) <:+ a.1

/-- Head chunks of an instrumented splitter output carry no overlap. -/
def HeadZero (l : List (List Char × Nat)) : Prop :=
  ∀ p ∈ l.head?, p.2 = 0

/-! ## rag.py: get_answer -/

/-- One request to the chat-completion provider: model identifier, sampling
temperature and the full prompt text (`ChatOpenAI` invocation). -/
structure LLMCall where
  model : String
  temperature : Nat
  prompt : String
deriving DecidableEq, Repr

/-- The external collaborators of `get_answer`: `rank` is the datastore's
similarity ordering over stored chunks (most similar first), `gen` the
generation provider. -/
structure RagEnv where
  rank : String → List Document
  gen : LLMCall → String

/-- The helper `format_docs` in `get_answer`: double-newline join. -/
def format_docs (docs : List Document) : String :=
  join_sep "\n\n" (docs.map (fun d => d.page_content))

/-- The prompt template of `get_answer`, filled: the Python source is an
indented triple-quoted string, so the braces stand after a newline plus eight
spaces of indentation, and an indented blank line separates context from
question. -/
def template_fill (context question : String) : String :=
  "Answer the question based only on the following context:\n        " ++ context
    ++ "\n        \n        Question: " ++ question ++ "\n        "

/-- Modelled from the spec: the template exactly as the spec sentence words it,
with a single space after the colon and a single newline before `Question:`.
Declared only for refinement comparison with `template_fill`, which is ported
from the source. -/
def claimed_template_fill (context question : String) : String :=
  "Answer the question based only on the following context: " ++ context
    ++ "\nQuestion: " ++ question

/-- `vector_store.as_retriever(search_type="similarity", search_kwargs={"k": 3})`:
the top 3 of the store's similarity ranking. -/
def as_retriever_k3 (env : RagEnv) (query : String) : List Document :=
  (env.rank query).take 3

/-- The source-citation formatter of `get_answer`:
`f"{doc.metadata.get('source', 'Unknown')} (Page {doc.metadata.get('page', 0)})"`. -/
def cite (doc : Document) : String :=
  doc.metadata.source.getD "Unknown" ++ " (Page " ++ toString (doc.metadata.page.getD 0) ++ ")"

/-- `rag.get_answer(query, use_rag)`. -/
def get_answer (env : RagEnv) (query : String) (use_rag : Bool) : String × List String :=
  if use_rag then
    let retrieved_docs := as_retriever_k3 env query
    let context := format_docs retrieved_docs
    let response_text :=
      env.gen { model := "gpt-3.5-turbo", temperature := 0, prompt := template_fill context query }
    let sources := retrieved_docs.map cite
    (response_text, sources)
  else
    (env.gen { model := "gpt-3.5-turbo", temperature := 0, prompt := query }, [])

/-! ## db.py -/

/-- Process configuration after `load_dotenv()`. -/
structure AppEnv where
  MONGO_URI : Option String
deriving DecidableEq, Repr

structure MongoClient where
  uri : String
deriving DecidableEq, Repr

structure Collection where
  client : MongoClient
  db : String
  name : String
deriving DecidableEq, Repr

/-- `db.get_mongo_client`: raises `ValueError` when `MONGO_URI` is unset. -/
def get_mongo_client (env : AppEnv) : Except String MongoClient :=
  match env.MONGO_URI with
  | some uri => Except.ok { uri := uri }
  | none => Except.error "MONGO_URI environment variable is not set. .env 파일을 확인해주세요."

/-- `db.get_vector_collection`: fixed database `rag_db`, collection `embeddings`. -/
def get_vector_collection (env : AppEnv) : Except String Collection :=
  (get_mongo_client env).map (fun c => { client := c, db := "rag_db", name := "embeddings" })

/-! ## api.py and main.py -/

def DATA_DIR : String := "data"

/-- `os.path.join(dir, fn)` (POSIX): an absolute second component replaces the
first, otherwise the components are joined with a slash. -/
def os_path_join (dir fn : String) : String :=
  if str_startswith fn "/" then fn else dir ++ "/" ++ fn

/-- Observable server-side state: the set of local file paths that exist plus
the datastore collection contents. -/
structure SysState where
  files : List String
  store : List Document
deriving DecidableEq, Repr

/-- Outcome of the fallible part of `/upload` after the extension check
(file save, PDF parse, embedding, upsert), supplied by the environment:
`ok` carries the upserted chunks; `saveError` is a raise inside the
`open`/`copyfileobj` block (`created` says whether the file had been created
before the raise); `ingestError` is a raise inside `ingest_pdf` (the file was
saved; `leftover` is whatever partial upsert the datastore retained). -/
inductive StepOutcome where
  | ok (chunks : List Document)
  | saveError (created : Bool) (e : String)
  | ingestError (leftover : List Document) (e : String)
deriving DecidableEq, Repr

structure HttpResponse where
  status : Nat
  detail : String
deriving DecidableEq, Repr

/-- Writing a file at a path: the path now exists. -/
def insertPath (p : String) (files : List String) : List String :=
  if p ∈ files then files else files ++ [p]

/-- `if os.path.exists(file_path): os.remove(file_path)`. -/
def removePath (p : String) (files : List String) : List String :=
  files.filter (fun q => q ≠ p)

/-- `api.upload_file`: reject non-`.pdf` filenames with 400 before any state
change; otherwise save under `os.path.join(DATA_DIR, filename)`, run
`ingest_pdf`, and on any raise delete the saved file (if it exists) and return
500 with `"Upload failed: " + str(e)` as detail. -/
def upload_file (st : SysState) (filename : String) (outcome : StepOutcome) :
    HttpResponse × SysState :=
  if ¬ str_endswith filename ".pdf" then
    ({ status := 400, detail := "Only PDF files are allowed" }, st)
  else
    let file_path := os_path_join DATA_DIR filename
    match outcome with
    | StepOutcome.ok chunks =>
        ({ status := 200, detail := "Successfully processed " ++ filename },
         { files := insertPath file_path st.files, store := st.store ++ chunks })
    | StepOutcome.saveError created e =>
        let files1 := if created then insertPath file_path st.files else st.files
        ({ status := 500, detail := "Upload failed: " ++ e },
         { files := removePath file_path files1, store := st.store })
    | StepOutcome.ingestError leftover e =>
        ({ status := 500, detail := "Upload failed: " ++ e },
         { files := removePath file_path (insertPath file_path st.files),
           store := st.store ++ leftover })

/-- Module-initialization work performed before the server accepts requests
(`main.py` importing `api.py`): create the upload directory if absent and
register the routes.  No configuration is validated and no datastore
connection is opened, so this never fails; the `Except` codomain records that
an aborting startup would surface here as `Except.error`. -/
def app_startup (_env : AppEnv) (files : List String) : Except String (List String) :=
  Except.ok (if DATA_DIR ∈ files then files else files ++ [DATA_DIR])

/-- Result of the `/chat` handler: HTTP status, answer text (or, for status
500, the `HTTPException` detail `str(e)`), and sources. -/
structure ChatResult where
  status : Nat
  answer : String
  sources : List String
deriving DecidableEq, Repr

/-- `api.chat`: delegate to `get_answer`; any raise is caught and surfaced as
a 500 whose detail is `str(e)`.  In RAG mode the first fallible step touching
process configuration is `get_vector_collection`. -/
def chat (env : AppEnv) (rag : RagEnv) (query : String) (use_rag : Bool) : ChatResult :=
  if use_rag then
    match get_vector_collection env with
    | Except.error e => { status := 500, answer := e, sources := [] }
    | Except.ok _ =>
        let r := get_answer rag query true
        { status := 200, answer := r.1, sources := r.2 }
  else
    let r := get_answer rag query false
    { status := 200, answer := r.1, sources := r.2 }

/-! ## Path normalization (for the traversal claim) -/

/-- Split a character list at every occurrence of one character. -/
def splitOnChar (c : Char) : List Char → List (List Char)
  | [] => [[]]
  | x :: xs =>
    let rest := splitOnChar c xs
    if x = c then [] :: rest
    else
      match rest with
      | [] => [[x]]
      | r :: rs => (x :: r) :: rs

/-- Resolve `.`, `..` and empty path segments (what the operating system does
when the written path is actually opened). -/
def normalizeComponents (comps : List (List Char)) : List (List Char) :=
  comps.foldl
    (fun stack c =>
      if c = [] ∨ c = ['.'] then stack
      else if c = ['.', '.'] then stack.dropLast
      else stack ++ [c])
    []

/-- Normalized form of a relative POSIX path. -/
def normalizePath (p : String) : String :=
  join_sep "/" ((normalizeComponents (splitOnChar '/' p.data)).map (fun l => String.mk l))

/-- Whether a filename ends in some case variant of `".pdf"`. -/
def pdfCaseVariant (fn : String) : Bool :=
  match fn.data.reverse with
  | f :: d :: p :: dot :: _ =>
      dot == '.' && (p == 'p' || p == 'P') && (d == 'd' || d == 'D') && (f == 'f' || f == 'F')
  | _ => false

/-! ## Splitter lemmas -/

theorem sumLen_nil : sumLen [] = 0 := rfl

theorem sumLen_cons (d : List Char) (l : List (List Char)) :
    sumLen (d :: l) = d.length + sumLen l := by
  simp [sumLen]

theorem sumLen_append (l₁ l₂ : List (List Char)) :
    sumLen (l₁ ++ l₂) = sumLen l₁ + sumLen l₂ := by
  simp [sumLen]

theorem flatten_length (l : List (List Char)) : l.flatten.length = sumLen l := by
  simp [sumLen, List.length_flatten]

theorem trimChars_length_le (l : List Char) : (trimChars l).length ≤ l.length := by
  unfold trimChars
  calc ((l.dropWhile Char.isWhitespace).reverse.dropWhile Char.isWhitespace).reverse.length
      = ((l.dropWhile Char.isWhitespace).reverse.dropWhile Char.isWhitespace).length := by
        rw [List.length_reverse]
    _ ≤ (l.dropWhile Char.isWhitespace).reverse.length :=
        (List.dropWhile_suffix _).length_le
    _ = (l.dropWhile Char.isWhitespace).length := by rw [List.length_reverse]
    _ ≤ l.length := (List.dropWhile_suffix _).length_le

theorem joinDocs_length {cur : List (List Char)} {t : List Char}
    (h : joinDocs cur = some t) : t.length ≤ sumLen cur := by
  unfold joinDocs at h
  split at h
  · exact absurd h (by simp)
  · cases h
    calc (trimChars cur.flatten).length ≤ cur.flatten.length := trimChars_length_le _
      _ = sumLen cur := flatten_length cur

theorem popWhile_spec (lenD : Nat) (cur : List (List Char)) :
    ∀ (total : Nat) (cur' : List (List Char)) (total' : Nat),
      total = sumLen cur → popWhile lenD cur total = (cur', total') →
      total' = sumLen cur' ∧ cur' <:+ cur ∧ total' ≤ chunk_overlap
        ∧ (total' + lenD ≤ chunk_size ∨ total' = 0) := by
  induction cur with
  | nil =>
    intro total cur' total' h hpw
    rw [popWhile] at hpw
    cases hpw
    simp [sumLen] at h
    subst h
    exact ⟨rfl, List.suffix_refl _, by simp [chunk_overlap], Or.inr rfl⟩
  | cons d rest ih =>
    intro total cur' total' h hpw
    rw [popWhile] at hpw
    by_cases hc : total > chunk_overlap ∨ (total + lenD > chunk_size ∧ total > 0)
    · rw [if_pos hc] at hpw
      have h' : total - d.length = sumLen rest := by
        rw [sumLen_cons] at h
        omega
      obtain ⟨a, b, c, dd⟩ := ih _ _ _ h' hpw
      exact ⟨a, b.trans (List.suffix_cons d rest), c, dd⟩
    · rw [if_neg hc] at hpw
      cases hpw
      refine ⟨h, List.suffix_refl _, ?_, ?_⟩ <;>
        (simp only [chunk_overlap, chunk_size] at hc ⊢; omega)

theorem mergeRec_length (ds : List (List Char)) :
    ∀ (cur : List (List Char)) (total : Nat),
      (∀ s ∈ ds, s.length < chunk_size) → total = sumLen cur → total ≤ chunk_size →
      ∀ c ∈ mergeRec ds cur total, c.length ≤ chunk_size := by
  induction ds with
  | nil =>
    intro cur total _ h hle c hc
    rw [mergeRec] at hc
    split at hc
    · rename_i t ht
      simp at hc
      subst hc
      exact le_trans (joinDocs_length ht) (h ▸ hle)
    · simp at hc
  | cons d ds ih =>
    intro cur total hds h hle c hc
    have hd : d.length < chunk_size := hds d (by simp)
    have hds' : ∀ s ∈ ds, s.length < chunk_size := fun s hs => hds s (by simp [hs])
    rw [mergeRec] at hc
    by_cases hov : total + d.length > chunk_size
    · rw [if_pos hov] at hc
      by_cases hcur : cur = []
      · subst hcur
        simp [sumLen] at h
        omega
      · rw [if_neg hcur] at hc
        rcases List.mem_append.mp hc with hmem | hmem
        · split at hmem
          · rename_i t ht
            simp at hmem
            subst hmem
            exact le_trans (joinDocs_length ht) (h ▸ hle)
          · simp at hmem
        · obtain ⟨ha, _, _, hd'⟩ :=
            popWhile_spec d.length cur total
              (popWhile d.length cur total).1 (popWhile d.length cur total).2 h rfl
          refine ih _ _ hds' ?_ ?_ c hmem
          · rw [sumLen_append, sumLen_cons, sumLen_nil, ha]
            omega
          · omega
    · rw [if_neg hov] at hc
      refine ih _ _ hds' ?_ (by omega) c hc
      rw [sumLen_append, sumLen_cons, sumLen_nil, h]
      omega

theorem merge_splits_length (splits : List (List Char))
    (h : ∀ s ∈ splits, s.length < chunk_size) :
    ∀ c ∈ merge_splits splits, c.length ≤ chunk_size :=
  mergeRec_length splits [] 0 h rfl (by simp)

theorem processSplits_length (recur : List Char → List (List Char))
    (hrec : ∀ s, ∀ c ∈ recur s, c.length ≤ chunk_size) (ss : List (List Char)) :
    ∀ good, (∀ g ∈ good, g.length < chunk_size) →
      ∀ c ∈ processSplits recur ss good, c.length ≤ chunk_size := by
  induction ss with
  | nil =>
    intro good hg c hc
    rw [processSplits] at hc
    split at hc
    · simp at hc
    · exact merge_splits_length good hg c hc
  | cons s ss ih =>
    intro good hg c hc
    rw [processSplits] at hc
    by_cases hlen : s.length < chunk_size
    · rw [if_pos hlen] at hc
      refine ih _ ?_ c hc
      intro g hgm
      rcases List.mem_append.mp hgm with hgm | hgm
      · exact hg g hgm
      · simp at hgm; subst hgm; exact hlen
    · rw [if_neg hlen] at hc
      rcases List.mem_append.mp hc with hc | hc
      · rcases List.mem_append.mp hc with hc | hc
        · split at hc
          · simp at hc
          · exact merge_splits_length good hg c hc
        · exact hrec s c hc
      · exact ih [] (by simp) c hc

theorem charSplits_short (text : List Char) :
    ∀ s ∈ charSplits text, s.length < chunk_size := by
  intro s hs
  unfold charSplits at hs
  obtain ⟨hmem, -⟩ := List.mem_filter.mp hs
  obtain ⟨c, -, rfl⟩ := List.mem_map.mp hmem
  simp [chunk_size]

theorem splitL3_length (text : List Char) :
    ∀ c ∈ splitL3 text, c.length ≤ chunk_size :=
  merge_splits_length (charSplits text) (charSplits_short text)

theorem splitL2_length (text : List Char) :
    ∀ c ∈ splitL2 text, c.length ≤ chunk_size := by
  unfold splitL2
  split
  · exact processSplits_length splitL3 splitL3_length _ [] (by simp)
  · exact splitL3_length text

theorem splitL1_length (text : List Char) :
    ∀ c ∈ splitL1 text, c.length ≤ chunk_size := by
  unfold splitL1
  split
  · exact processSplits_length splitL2 splitL2_length _ [] (by simp)
  · exact splitL2_length text

theorem splitL0_length (text : List Char) :
    ∀ c ∈ splitL0 text, c.length ≤ chunk_size := by
  unfold splitL0
  split
  · exact processSplits_length splitL1 splitL1_length _ [] (by simp)
  · exact splitL1_length text

theorem split_text_length (text : String) :
    ∀ c ∈ split_text text, c.length ≤ chunk_size := by
  intro c hc
  unfold split_text at hc
  obtain ⟨l, hl, rfl⟩ := List.mem_map.mp hc
  exact splitL0_length text.data l hl

/-! ## Annotated splitter lemmas -/

theorem emit_joinDocs (cur : List (List Char)) :
    (match joinDocs cur with
      | some t => [t]
      | none => ([] : List (List Char))) =
      (if trimChars cur.flatten = [] then [] else [trimChars cur.flatten]) := by
  by_cases hT : trimChars cur.flatten = [] <;> simp [joinDocs, hT]

theorem filterTrim_nil : filterTrim [] = [] := rfl

theorem filterTrim_cons (p : List Char × Nat) (l : List (List Char × Nat)) :
    filterTrim (p :: l) =
      (if trimChars p.1 = [] then [] else [trimChars p.1]) ++ filterTrim l := by
  by_cases hT : trimChars p.1 = [] <;> simp [filterTrim, List.filterMap_cons, hT]

theorem filterTrim_append (l₁ l₂ : List (List Char × Nat)) :
    filterTrim (l₁ ++ l₂) = filterTrim l₁ ++ filterTrim l₂ :=
  List.filterMap_append _ _ _

theorem mergeRecAnn_filterTrim (ds : List (List Char)) :
    ∀ (cur : List (List Char)) (total carried : Nat),
      mergeRec ds cur total = filterTrim (mergeRecAnn ds cur total carried) := by
  induction ds with
  | nil =>
    intro cur total carried
    rw [mergeRec, mergeRecAnn]
    by_cases hcur : cur = []
    · rw [if_pos hcur]
      subst hcur
      simp [joinDocs, trimChars, filterTrim]
    · rw [if_neg hcur, filterTrim_cons, filterTrim_nil, List.append_nil]
      exact emit_joinDocs cur
  | cons d ds ih =>
    intro cur total carried
    rw [mergeRec, mergeRecAnn]
    by_cases hov : total + d.length > chunk_size
    · rw [if_pos hov, if_pos hov]
      by_cases hcur : cur = []
      · rw [if_pos hcur, if_pos hcur]
        exact ih _ _ _
      · rw [if_neg hcur, if_neg hcur, filterTrim_cons, emit_joinDocs, ih _ _ (popWhile d.length cur total).2]
    · rw [if_neg hov, if_neg hov]
      exact ih _ _ _

theorem mergeRecAnn_spec (ds : List (List Char)) :
    ∀ (cur : List (List Char)) (total carried : Nat),
      (∀ s ∈ ds, s.length < chunk_size) → total = sumLen cur → total ≤ chunk_size →
      (∀ p ∈ mergeRecAnn ds cur total carried, p.1.length ≤ chunk_size)
      ∧ List.Chain' ovRel (mergeRecAnn ds cur total carried)
      ∧ (∀ p ∈ (mergeRecAnn ds cur total carried).head?, p.2 = carried ∧ cur.flatten <+: p.1) := by
  induction ds with
  | nil =>
    intro cur total carried _ h hle
    rw [mergeRecAnn]
    by_cases hcur : cur = []
    · rw [if_pos hcur]
      exact ⟨by simp, by simp, by simp⟩
    · rw [if_neg hcur]
      refine ⟨?_, by simp, ?_⟩
      · intro p hp
        simp at hp
        subst hp
        show cur.flatten.length ≤ chunk_size
        rw [flatten_length, ← h]
        exact hle
      · intro p hp
        simp at hp
        subst hp
        exact ⟨rfl, List.prefix_refl _⟩
  | cons d ds ih =>
    intro cur total carried hds h hle
    have hd : d.length < chunk_size := hds d (by simp)
    have hds' : ∀ s ∈ ds, s.length < chunk_size := fun s hs => hds s (by simp [hs])
    rw [mergeRecAnn]
    by_cases hov : total + d.length > chunk_size
    · rw [if_pos hov]
      by_cases hcur : cur = []
      · exfalso
        subst hcur
        simp [sumLen] at h
        omega
      · rw [if_neg hcur]
        obtain ⟨ha, hsuf, hco, hcs⟩ :=
          popWhile_spec d.length cur total
            (popWhile d.length cur total).1 (popWhile d.length cur total).2 h rfl
        have hinv : (popWhile d.length cur total).2 + d.length
            = sumLen ((popWhile d.length cur total).1 ++ [d]) := by
          rw [sumLen_append, sumLen_cons, sumLen_nil, ha]
          omega
        have hle' : (popWhile d.length cur total).2 + d.length ≤ chunk_size := by omega
        obtain ⟨ihlen, ihchain, ihhead⟩ := ih _ _ (popWhile d.length cur total).2 hds' hinv hle'
        refine ⟨?_, ?_, ?_⟩
        · intro p hp
          rcases List.mem_cons.mp hp with rfl | hp
          · show cur.flatten.length ≤ chunk_size
            rw [flatten_length, ← h]
            exact hle
          · exact ihlen p hp
        · rw [List.chain'_cons']
          refine ⟨?_, ihchain⟩
          intro y hy
          obtain ⟨hy2, hypre⟩ := ihhead y hy
          have hflat : (popWhile d.length cur total).1.flatten <:+ cur.flatten := by
            obtain ⟨t, ht⟩ := hsuf
            exact ⟨t.flatten, by rw [← List.flatten_append, ht]⟩
          refine ⟨by rw [hy2]; exact hco, ?_⟩
          show y.1.take y.2 <:+ cur.flatten
          obtain ⟨ext, hext⟩ := hypre
          have htake : y.1.take y.2 = (popWhile d.length cur total).1.flatten := by
            rw [hy2, ← hext, List.flatten_append, List.append_assoc]
            have hlen1 : (popWhile d.length cur total).1.flatten.length
                = (popWhile d.length cur total).2 := by rw [flatten_length, ha]
            rw [← hlen1, List.take_left]
          rw [htake]
          exact hflat
        · intro p hp
          simp at hp
          subst hp
          exact ⟨rfl, List.prefix_refl _⟩
    · rw [if_neg hov]
      have hinv : total + d.length = sumLen (cur ++ [d]) := by
        rw [sumLen_append, sumLen_cons, sumLen_nil, h]
        omega
      obtain ⟨ihlen, ihchain, ihhead⟩ := ih _ _ carried hds' hinv (by omega)
      refine ⟨ihlen, ihchain, ?_⟩
      intro p hp
      obtain ⟨h2, hpre⟩ := ihhead p hp
      refine ⟨h2, List.IsPrefix.trans ?_ hpre⟩
      rw [List.flatten_append]
      exact List.prefix_append _ _

theorem mergeGroup_spec (good : List (List Char)) (hg : ∀ g ∈ good, g.length < chunk_size) :
    (∀ p ∈ mergeRecAnn good [] 0 0, p.1.length ≤ chunk_size)
    ∧ List.Chain' ovRel (mergeRecAnn good [] 0 0)
    ∧ HeadZero (mergeRecAnn good [] 0 0) := by
  obtain ⟨a, b, c⟩ := mergeRecAnn_spec good [] 0 0 hg rfl (by simp)
  exact ⟨a, b, fun p hp => (c p hp).1⟩

theorem headZero_append {l₁ l₂ : List (List Char × Nat)}
    (h₁ : HeadZero l₁) (h₂ : HeadZero l₂) : HeadZero (l₁ ++ l₂) := by
  cases l₁ with
  | nil => simp only [List.nil_append]; exact h₂
  | cons a l =>
    intro p hp
    simp at hp
    subst hp
    exact h₁ a (by simp)

theorem chain'_append_ov {l₁ l₂ : List (List Char × Nat)}
    (h₁ : List.Chain' ovRel l₁) (h₂ : List.Chain' ovRel l₂) (hz : HeadZero l₂) :
    List.Chain' ovRel (l₁ ++ l₂) := by
  refine List.Chain'.append h₁ h₂ ?_
  intro x _ y hy
  have hy0 := hz y hy
  exact ⟨by rw [hy0]; exact Nat.zero_le _, by rw [hy0]; exact List.nil_suffix⟩

theorem processSplitsAnn_spec (recurAnn : List Char → List (List Char × Nat))
    (hreclen : ∀ s, ∀ p ∈ recurAnn s, p.1.length ≤ chunk_size)
    (hrecchain : ∀ s, List.Chain' ovRel (recurAnn s))
    (hrechead : ∀ s, HeadZero (recurAnn s))
    (ss : List (List Char)) :
    ∀ good, (∀ g ∈ good, g.length < chunk_size) →
      (∀ p ∈ processSplitsAnn recurAnn ss good, p.1.length ≤ chunk_size)
      ∧ List.Chain' ovRel (processSplitsAnn recurAnn ss good)
      ∧ HeadZero (processSplitsAnn recurAnn ss good) := by
  induction ss with
  | nil =>
    intro good hg
    rw [processSplitsAnn]
    split
    · exact ⟨by simp, by simp, by simp [HeadZero]⟩
    · exact mergeGroup_spec good hg
  | cons s ss ih =>
    intro good hg
    rw [processSplitsAnn]
    by_cases hlen : s.length < chunk_size
    · rw [if_pos hlen]
      refine ih _ ?_
      intro g hgm
      rcases List.mem_append.mp hgm with hgm | hgm
      · exact hg g hgm
      · simp at hgm
        subst hgm
        exact hlen
    · rw [if_neg hlen]
      obtain ⟨ihlen, ihchain, ihz⟩ := ih [] (by simp)
      have hgrp : (∀ p ∈ (if good = [] then [] else mergeRecAnn good [] 0 0), p.1.length ≤ chunk_size)
          ∧ List.Chain' ovRel (if good = [] then [] else mergeRecAnn good [] 0 0)
          ∧ HeadZero (if good = [] then [] else mergeRecAnn good [] 0 0) := by
        split
        · exact ⟨by simp, by simp, by simp [HeadZero]⟩
        · exact mergeGroup_spec good hg
      obtain ⟨g1, g2, g3⟩ := hgrp
      refine ⟨?_, ?_, ?_⟩
      · intro p hp
        rcases List.mem_append.mp hp with hp | hp
        · rcases List.mem_append.mp hp with hp | hp
          · exact g1 p hp
          · exact hreclen s p hp
        · exact ihlen p hp
      · exact chain'_append_ov (chain'_append_ov g2 (hrecchain s) (hrechead s)) ihchain ihz
      · exact headZero_append (headZero_append g3 (hrechead s)) ihz

theorem splitL3Ann_spec (text : List Char) :
    (∀ p ∈ splitL3Ann text, p.1.length ≤ chunk_size)
    ∧ List.Chain' ovRel (splitL3Ann text) ∧ HeadZero (splitL3Ann text) := by
  unfold splitL3Ann
  exact mergeGroup_spec (charSplits text) (charSplits_short text)

theorem splitL2Ann_spec (text : List Char) :
    (∀ p ∈ splitL2Ann text, p.1.length ≤ chunk_size)
    ∧ List.Chain' ovRel (splitL2Ann text) ∧ HeadZero (splitL2Ann text) := by
  unfold splitL2Ann
  split
  · exact processSplitsAnn_spec splitL3Ann (fun s => (splitL3Ann_spec s).1)
      (fun s => (splitL3Ann_spec s).2.1) (fun s => (splitL3Ann_spec s).2.2) _ [] (by simp)
  · exact splitL3Ann_spec text

theorem splitL1Ann_spec (text : List Char) :
    (∀ p ∈ splitL1Ann text, p.1.length ≤ chunk_size)
    ∧ List.Chain' ovRel (splitL1Ann text) ∧ HeadZero (splitL1Ann text) := by
  unfold splitL1Ann
  split
  · exact processSplitsAnn_spec splitL2Ann (fun s => (splitL2Ann_spec s).1)
      (fun s => (splitL2Ann_spec s).2.1) (fun s => (splitL2Ann_spec s).2.2) _ [] (by simp)
  · exact splitL2Ann_spec text

theorem splitL0Ann_spec (text : List Char) :
    (∀ p ∈ splitL0Ann text, p.1.length ≤ chunk_size)
    ∧ List.Chain' ovRel (splitL0Ann text) ∧ HeadZero (splitL0Ann text) := by
  unfold splitL0Ann
  split
  · exact processSplitsAnn_spec splitL1Ann (fun s => (splitL1Ann_spec s).1)
      (fun s => (splitL1Ann_spec s).2.1) (fun s => (splitL1Ann_spec s).2.2) _ [] (by simp)
  · exact splitL1Ann_spec text

theorem processSplitsAnn_filterTrim (recur : List Char → List (List Char))
    (recurAnn : List Char → List (List Char × Nat))
    (hrec : ∀ s, recur s = filterTrim (recurAnn s)) (ss : List (List Char)) :
    ∀ good, processSplits recur ss good = filterTrim (processSplitsAnn recurAnn ss good) := by
  induction ss with
  | nil =>
    intro good
    rw [processSplits, processSplitsAnn]
    by_cases hgood : good = []
    · rw [if_pos hgood, if_pos hgood]
      rfl
    · rw [if_neg hgood, if_neg hgood]
      exact mergeRecAnn_filterTrim good [] 0 0
  | cons s ss ih =>
    intro good
    rw [processSplits, processSplitsAnn]
    by_cases hlen : s.length < chunk_size
    · rw [if_pos hlen, if_pos hlen]
      exact ih _
    · rw [if_neg hlen, if_neg hlen, filterTrim_append, filterTrim_append]
      congr 1
      · congr 1
        · by_cases hgood : good = []
          · rw [if_pos hgood, if_pos hgood]
            rfl
          · rw [if_neg hgood, if_neg hgood]
            exact mergeRecAnn_filterTrim good [] 0 0
        · exact hrec s
      · exact ih []

theorem splitL3_filterTrim (text : List Char) : splitL3 text = filterTrim (splitL3Ann text) := by
  unfold splitL3 splitL3Ann merge_splits
  exact mergeRecAnn_filterTrim _ [] 0 0

theorem splitL2_filterTrim (text : List Char) : splitL2 text = filterTrim (splitL2Ann text) := by
  unfold splitL2 splitL2Ann
  split
  · exact processSplitsAnn_filterTrim splitL3 splitL3Ann splitL3_filterTrim _ []
  · exact splitL3_filterTrim text

theorem splitL1_filterTrim (text : List Char) : splitL1 text = filterTrim (splitL1Ann text) := by
  unfold splitL1 splitL1Ann
  split
  · exact processSplitsAnn_filterTrim splitL2 splitL2Ann splitL2_filterTrim _ []
  · exact splitL2_filterTrim text

theorem splitL0_filterTrim (text : List Char) : splitL0 text = filterTrim (splitL0Ann text) := by
  unfold splitL0 splitL0Ann
  split
  · exact processSplitsAnn_filterTrim splitL1 splitL1Ann splitL1_filterTrim _ []
  · exact splitL1_filterTrim text

/-! ## Claim theorems -/

/-- Claim C1: with `use_rag=true`, `get_answer` returns at most 3 sources —
exactly one per retrieved chunk, in retrieval-rank order — each formatted as
`"<source> (Page <page>)"`, with `source` defaulting to `"Unknown"` and `page`
defaulting to `0` when the chunk metadata lacks those keys. -/
theorem C1_rag_sources_format (env : RagEnv) (q : String) :
    (get_answer env q true).2.length ≤ 3 ∧
    (get_answer env q true).2 =
      (as_retriever_k3 env q).map (fun doc =>
        doc.metadata.source.getD "Unknown" ++ " (Page "
          ++ toString (doc.metadata.page.getD 0) ++ ")") := by
  constructor
  · simp [get_answer, as_retriever_k3, List.length_take]
  · rfl

/-- Claim C2: with `use_rag=false`, `get_answer` forwards the query verbatim to
the generation provider at temperature 0 with the fixed model identifier
`gpt-3.5-turbo` and returns its text paired with an empty sources list. -/
theorem C2_no_rag_passthrough (env : RagEnv) (q : String) :
    get_answer env q false =
      (env.gen { model := "gpt-3.5-turbo", temperature := 0, prompt := q }, []) := rfl

/-- Claim C3: `ingest_text` returns a chunk count equal to the number of
segments produced by the splitter (`chunk_size` 1000, `chunk_overlap` 200);
every produced segment is at most 1000 characters long; and, through the
instrumented splitter `splitL0Ann` (whose raw segments yield the real ones by
whitespace-stripping, `filterTrim`), every segment starts with a carried-over
region of between 0 and 200 characters that is literally a suffix of its
predecessor segment (`ovRel`), the first segment carrying none (`HeadZero`). -/
theorem C3_ingest_text_chunking (store : List Document) (text : String) :
    (ingest_text store text).1 = (split_text text).length
    ∧ (∀ c ∈ split_text text, c.length ≤ chunk_size)
    ∧ split_text text = (filterTrim (splitL0Ann text.data)).map (fun l => String.mk l)
    ∧ (∀ p ∈ splitL0Ann text.data, p.1.length ≤ chunk_size)
    ∧ List.Chain' ovRel (splitL0Ann text.data)
    ∧ HeadZero (splitL0Ann text.data) := by
  obtain ⟨l0len, l0chain, l0z⟩ := splitL0Ann_spec text.data
  refine ⟨?_, split_text_length text, ?_, l0len, l0chain, l0z⟩
  · simp [ingest_text, split_documents]
  · unfold split_text
    rw [splitL0_filterTrim]

/-- Claim C8: every chunk newly stored by `ingest_text` (the stored collection
beyond the preexisting prefix) carries source metadata `"User Input"`,
independent of the text. -/
theorem C8_user_input_source (store : List Document) (text : String) (d : Document)
    (h : d ∈ (ingest_text store text).2.drop store.length) :
    d.metadata.source = some "User Input" := by
  simp only [ingest_text] at h
  rw [List.drop_left] at h
  simp only [split_documents, List.map_cons, List.map_nil, List.flatten_cons, List.flatten_nil,
    List.append_nil] at h
  obtain ⟨c, -, rfl⟩ := List.mem_map.mp h
  rfl

/-- Witness for C8 at the concrete input `"hi"`, whose single chunk is checked
to be stored with the `"User Input"` source marker. -/
theorem C8_user_input_source_witness :
    ({ page_content := "hi",
       metadata := { source := some "User Input", page := none } } : Document).metadata.source
      = some "User Input" :=
  C8_user_input_source [] "hi" _ (by decide)

/-- Claim C4: `/upload` with a filename not ending in `".pdf"` returns 400 and
changes no state: no file is written and nothing is upserted. -/
theorem C4_upload_reject_no_state_change (st : SysState) (fn : String) (outcome : StepOutcome)
    (h : str_endswith fn ".pdf" = false) :
    upload_file st fn outcome = ({ status := 400, detail := "Only PDF files are allowed" }, st) := by
  simp [upload_file, h]

/-- Witness for C4 at the concrete filename `"notes.txt"`. -/
theorem C4_upload_reject_no_state_change_witness :
    upload_file { files := [], store := [] } "notes.txt" (StepOutcome.ok []) =
      ({ status := 400, detail := "Only PDF files are allowed" }, { files := [], store := [] }) :=
  C4_upload_reject_no_state_change _ _ _ (by decide)

/-- Counterexample to claim C5 as stated: the prompt actually sent is filled
into the indented triple-quoted template of the source, not the single-line
template `"Answer the question based only on the following context:
{context}\nQuestion: {question}"` quoted by the claim (the provider is
instantiated as an echo so the prompt is observable). -/
theorem C5_counterexample :
    (get_answer
      { rank := fun _ =>
          [{ page_content := "alpha", metadata := { source := none, page := none } },
           { page_content := "beta", metadata := { source := none, page := none } }],
        gen := fun call => call.prompt }
      "hi" true).1 ≠ claimed_template_fill "alpha\n\nbeta" "hi" := by decide

/-- Claim C5 as amended: with `use_rag=true` the prompt sent to the generation
provider (at temperature 0, model `gpt-3.5-turbo`) is obtained by joining the
texts of the top-3 retrieved chunks with double newlines as the context and
substituting context and question into the source's triple-quoted template,
which carries a newline plus eight spaces of indentation around the context
slot, an indented blank line, and a trailing indented newline:
`"Answer the question based only on the following context:\n        {context}\n        \n        Question: {question}\n        "`. -/
theorem C5_prompt_template (env : RagEnv) (q : String) :
    (get_answer env q true).1 =
      env.gen { model := "gpt-3.5-turbo", temperature := 0,
                prompt := template_fill
                  (join_sep "\n\n" (((env.rank q).take 3).map (fun d => d.page_content))) q } := rfl

/-- Claim C6: for a `".pdf"` filename, any raise after the extension check
(during file save or during `ingest_pdf`) makes the handler delete the
locally-buffered file and return 500 with the exception text embedded in the
response detail. -/
theorem C6_upload_failure_cleanup (st : SysState) (fn : String) (e : String)
    (created : Bool) (leftover : List Document) (h : str_endswith fn ".pdf" = true) :
    ((upload_file st fn (StepOutcome.saveError created e)).1.status = 500
      ∧ (upload_file st fn (StepOutcome.saveError created e)).1.detail = "Upload failed: " ++ e
      ∧ os_path_join DATA_DIR fn ∉ (upload_file st fn (StepOutcome.saveError created e)).2.files)
    ∧ ((upload_file st fn (StepOutcome.ingestError leftover e)).1.status = 500
      ∧ (upload_file st fn (StepOutcome.ingestError leftover e)).1.detail = "Upload failed: " ++ e
      ∧ os_path_join DATA_DIR fn ∉ (upload_file st fn (StepOutcome.ingestError leftover e)).2.files) := by
  simp [upload_file, h, removePath, insertPath, List.mem_filter]

/-- Witness for C6 at filename `"doc.pdf"` and exception text `"boom"`. -/
theorem C6_upload_failure_cleanup_witness :
    ((upload_file { files := [], store := [] } "doc.pdf" (StepOutcome.saveError true "boom")).1.status = 500
      ∧ (upload_file { files := [], store := [] } "doc.pdf" (StepOutcome.saveError true "boom")).1.detail
          = "Upload failed: " ++ "boom"
      ∧ os_path_join DATA_DIR "doc.pdf"
          ∉ (upload_file { files := [], store := [] } "doc.pdf" (StepOutcome.saveError true "boom")).2.files)
    ∧ ((upload_file { files := [], store := [] } "doc.pdf" (StepOutcome.ingestError [] "boom")).1.status = 500
      ∧ (upload_file { files := [], store := [] } "doc.pdf" (StepOutcome.ingestError [] "boom")).1.detail
          = "Upload failed: " ++ "boom"
      ∧ os_path_join DATA_DIR "doc.pdf"
          ∉ (upload_file { files := [], store := [] } "doc.pdf" (StepOutcome.ingestError [] "boom")).2.files) :=
  C6_upload_failure_cleanup { files := [], store := [] } "doc.pdf" "boom" true [] (by decide)

/-- Counterexample to claim C7 as stated: with `MONGO_URI` absent, application
startup completes normally (it would be `Except.error` if the process aborted
before serving requests). -/
theorem C7_counterexample :
    app_startup { MONGO_URI := none } [] = Except.ok [DATA_DIR] := rfl

/-- Claim C7 as amended: when `MONGO_URI` is absent the application still
starts (module initialization performs no datastore access); the connector's
`ValueError` is raised on first datastore use instead — a RAG-mode `/chat`
request is answered 500 while a non-RAG `/chat` request still succeeds. -/
theorem C7_missing_uri_fails_on_first_use (env : AppEnv) (files : List String)
    (rag : RagEnv) (q : String) (h : env.MONGO_URI = none) :
    app_startup env files = Except.ok (if DATA_DIR ∈ files then files else files ++ [DATA_DIR])
    ∧ get_mongo_client env =
        Except.error "MONGO_URI environment variable is not set. .env 파일을 확인해주세요."
    ∧ (chat env rag q true).status = 500
    ∧ (chat env rag q false).status = 200 := by
  refine ⟨rfl, ?_, ?_, rfl⟩ <;> simp [get_mongo_client, h, chat, get_vector_collection, Except.map]

/-- Witness for C7 (amended) at a concrete empty environment. -/
theorem C7_missing_uri_fails_on_first_use_witness :
    app_startup { MONGO_URI := none } []
        = Except.ok (if DATA_DIR ∈ ([] : List String) then [] else [] ++ [DATA_DIR])
    ∧ get_mongo_client { MONGO_URI := none } =
        Except.error "MONGO_URI environment variable is not set. .env 파일을 확인해주세요."
    ∧ (chat { MONGO_URI := none } { rank := fun _ => [], gen := fun _ => "" } "hi" true).status = 500
    ∧ (chat { MONGO_URI := none } { rank := fun _ => [], gen := fun _ => "" } "hi" false).status = 200 :=
  C7_missing_uri_fails_on_first_use { MONGO_URI := none } [] _ "hi" rfl

/-- Claim C9: the `/upload` handler joins the client-supplied filename onto the
upload directory with no sanitization, so the traversal filename
`"../secret/evil.pdf"` passes the extension check, is processed with status
200, and the written path resolves outside the upload directory. -/
theorem C9_path_traversal :
    str_endswith "../secret/evil.pdf" ".pdf" = true
    ∧ (upload_file { files := [], store := [] } "../secret/evil.pdf" (StepOutcome.ok [])).1.status = 200
    ∧ (upload_file { files := [], store := [] } "../secret/evil.pdf" (StepOutcome.ok [])).2.files
        = ["data/../secret/evil.pdf"]
    ∧ normalizePath "data/../secret/evil.pdf" = "secret/evil.pdf"
    ∧ str_startswith (normalizePath (os_path_join DATA_DIR "../secret/evil.pdf")) "data/" = false := by
  decide

/-- Claim C10: the extension check is case-sensitive, so any filename ending in
an uppercase or mixed-case variant of `".pdf"` (hence not in lowercase
`".pdf"`) is rejected with 400 and no state change. -/
theorem C10_uppercase_pdf_rejected (st : SysState) (fn : String) (outcome : StepOutcome)
    (_h1 : pdfCaseVariant fn = true) (h2 : str_endswith fn ".pdf" = false) :
    upload_file st fn outcome = ({ status := 400, detail := "Only PDF files are allowed" }, st) := by
  simp [upload_file, h2]

/-- Witness for C10 at the concrete filename `"report.PDF"`. -/
theorem C10_uppercase_pdf_rejected_witness :
    pdfCaseVariant "report.PDF" = true
    ∧ str_endswith "report.PDF" ".pdf" = false
    ∧ upload_file { files := [], store := [] } "report.PDF" (StepOutcome.ok []) =
        ({ status := 400, detail := "Only PDF files are allowed" }, { files := [], store := [] }) :=
  ⟨by decide, by decide, C10_uppercase_pdf_rejected _ _ _ (by decide) (by decide)⟩

end RagProject
